import Mathlib

/-!
Verification development for the commit-removal scripts of
`Analog-Clock-By-JavaScript` (`removeCommit.js`, `removeCommitAdvanced.js`,
`commitRemovalUtility.js` / `removeSingleCommit.js`).

The development shallowly embeds the coordinate-to-date resolver
(`moment().subtract(1,"y").add(1,"d").add(x,"w").add(y,"d")`), the
commit-selection filters, and the removal orchestration (backup branches,
dry-run, confirmation, filter-branch with rebase fallback) as pure Lean
functions with explicit state passing, and proves the spec's claims about
them.
-/

/-! ## Calendar model (moment.js date-only arithmetic) -/

/-- Gregorian leap-year rule, as used by moment.js for month lengths. -/
def isLeap (y : Nat) : Bool :=
  y % 4 == 0 && (y % 100 != 0 || y % 400 == 0)

/-- Number of days in a month (months are 1-based). -/
def daysInMonth (y m : Nat) : Nat :=
  match m with
  | 2 => if isLeap y then 29 else 28
  | 4 => 30
  | 6 => 30
  | 9 => 30
  | 11 => 30
  | _ => 31

/-- A calendar date with no time component (the resolver's output type). -/
structure Date where
  year : Nat
  month : Nat
  day : Nat
deriving DecidableEq, Repr

/-- A date is valid when its month is in 1..12 and its day fits the month. -/
def ValidDate (d : Date) : Prop :=
  1 ≤ d.month ∧ d.month ≤ 12 ∧ 1 ≤ d.day ∧ d.day ≤ daysInMonth d.year d.month

instance (d : Date) : Decidable (ValidDate d) := by
  unfold ValidDate; infer_instance

/-- Successor day: moment's `.add(1, "d")` on a date-only value. -/
def nextDay (d : Date) : Date :=
  if d.day < daysInMonth d.year d.month then
    ⟨d.year, d.month, d.day + 1⟩
  else if d.month < 12 then
    ⟨d.year, d.month + 1, 1⟩
  else
    ⟨d.year + 1, 1, 1⟩

/-- moment's `.add(n, "d")`: n successive day increments. -/
def addDays (d : Date) : Nat → Date
  | 0 => d
  | n + 1 => nextDay (addDays d n)

/-- moment's `.subtract(n, "y")`: same month, year decreased, day clamped to
the target month's length (this clamp is moment's Feb-29 behaviour). -/
def subYears (d : Date) (n : Nat) : Date :=
  let y := d.year - n
  ⟨y, d.month, min d.day (daysInMonth y d.month)⟩

/-- A monotone scalar measure of a date, strictly increased by `nextDay`
on valid dates. -/
def toN (d : Date) : Nat :=
  500 * d.year + 31 * d.month + d.day

/-! ## Coordinate resolver (`removeCommit.js`, lines 14-30)

`moment().subtract(1,"y").add(1,"d").add(x,"w").add(y,"d")`, with the
ambient clock `moment()` made an explicit `ref` parameter and `.add(x,"w")`
being `7*x` day increments. -/

/-- The epoch anchor: reference date minus one year plus one day. -/
def anchorOf (ref : Date) : Date :=
  addDays (subYears ref 1) 1

/-- Target-date computation of `removeCommitByCoordinates`: the source's
chain of moment operations. -/
def resolveDate (ref : Date) (x y : Nat) : Date :=
  addDays (addDays (anchorOf ref) (7 * x)) y

/-- Validation plus target-date computation of `removeCommitByCoordinates`
(`removeCommit.js`, lines 14-30), returning the validation error the source
throws, or the resolved date. -/
def resolveCoordinates (ref : Date) (x y : Int) : Except String Date :=
  if x < 0 ∨ 54 < x then
    .error "X coordinate must be between 0 and 54 (weeks)"
  else if y < 0 ∨ 6 < y then
    .error "Y coordinate must be between 0 and 6 (days)"
  else
    .ok (resolveDate ref x.toNat y.toNat)

/-! ## Commit selection (`removeCommit.js` lines 38-41,
`commitRemovalUtility.js` / `removeSingleCommit.js` lines 152-163) -/

/-- A commit timestamp: calendar date plus a time-of-day component that the
selection comparison (`moment(commit.date).format("YYYY-MM-DD")`) discards. -/
structure Timestamp where
  date : Date
  minuteOfDay : Nat
deriving DecidableEq, Repr

/-- A commit record as produced by `git.log()`. -/
structure CommitRecord where
  hash : String
  message : String
  timestamp : Timestamp
deriving DecidableEq, Repr

/-- The date-only component of a timestamp: what
`moment(commit.date).format("YYYY-MM-DD")` exposes. -/
def dateOnly (t : Timestamp) : Date := t.date

/-- The selection filter of `removeCommit.js` lines 38-41 and
`removeSingleCommit.js` lines 152-155: keep commits whose formatted date
equals the target date string. -/
def selectByDate (commits : List CommitRecord) (target : Date) :
    List CommitRecord :=
  commits.filter (fun c => dateOnly c.timestamp == target)

/-- The single-commit mode of `removeSingleCommit.js` lines 162-163:
`matchingCommits[0]`, the head of the filtered sequence. -/
def selectFirstByDate (commits : List CommitRecord) (target : Date) :
    Option CommitRecord :=
  (selectByDate commits target).head?

/-! ## Date-to-coordinate search (`removeSingleCommit.js`, lines 308-330) -/

/-- The scan order of `findCoordinatesForDate`: weeks 0..54 ascending, and
for each week, days 0..6 ascending. -/
def gridCoords : List (Nat × Nat) :=
  (List.range 55).flatMap (fun x => (List.range 7).map (fun y => (x, y)))

/-- `findCoordinatesForDate`: try every coordinate pair in scan order and
return the first whose resolved date equals the target, or none. -/
def findCoordinatesForDate (ref : Date) (target : Date) : Option (Nat × Nat) :=
  gridCoords.find? (fun c => resolveDate ref c.1 c.2 == target)

/-! ## Removal orchestration (`removeCommitAdvanced.js` = src/unnamed/part_000) -/

/-- Zero-padding to two digits, as in the `YYYY-MM-DD` format. -/
def pad2 (n : Nat) : String :=
  if n < 10 then "0" ++ toString n else toString n

/-- moment's `format("YYYY-MM-DD")` on a date-only value. -/
def formatDate (d : Date) : String :=
  toString d.year ++ "-" ++ pad2 d.month ++ "-" ++ pad2 d.day

/-- Does `pat` occur contiguously in the second list? -/
def containsSub (pat : List Char) : List Char → Bool
  | [] => pat.isEmpty
  | c :: rest => pat.isPrefixOf (c :: rest) || containsSub pat rest

/-- JavaScript `String.prototype.includes`. -/
def strIncludes (s pat : String) : Bool :=
  containsSub pat.toList s.toList

namespace Advanced

/-- Calls issued to the History Store (git) and to the interactive prompt. -/
inductive Event where
  | checkoutLocalBranch (branch : String)
  | checkout (branch : String)
  | deleteLocalBranch (branch : String)
  | filterBranch (hashes : List String)
  | rebaseOnto (hash : String)
  | push
  | askConfirm
deriving DecidableEq, Repr

/-- Mutating History Store primitives named by the spec: branch creation,
branch deletion, rebase, filter-branch, push. -/
def Event.isMutating : Event → Bool
  | .checkoutLocalBranch _ => true
  | .deleteLocalBranch _ => true
  | .filterBranch _ => true
  | .rebaseOnto _ => true
  | .push => true
  | _ => false

/-- History-rewriting primitives: commit-graph mutation and its propagation. -/
def Event.isRewrite : Event → Bool
  | .filterBranch _ => true
  | .rebaseOnto _ => true
  | .push => true
  | _ => false

/-- A log entry as parsed from `git log --pretty=format:%H|%s|%ad
--date=short`: the date field is a raw string. -/
structure LogEntry where
  hash : String
  message : String
  date : String
deriving DecidableEq, Repr

/-- Local repository state visible to the script: local branches and the
commit log (most recent first). -/
structure GitState where
  branches : List String
  commits : List LogEntry
deriving DecidableEq, Repr

/-- The options object of `removeCommitByCoordinates` with its defaults. -/
structure Options where
  force : Bool := false
  interactive : Bool := true
  dryRun : Bool := false
  backup : Bool := true
deriving DecidableEq, Repr

/-- External inputs of one invocation: the ambient clock, the generated
backup branch name, the prompt's answer, and the success of each fallible
git primitive. -/
structure Env where
  today : Date
  backupName : String
  confirm : Bool
  filterOk : Bool
  rebaseOk : String → Bool
  pushOk : Bool

/-- The substring all backup branch names contain. -/
def backupMarker : String := "backup-before-removal"

/-- `cleanupBackupBranch` (lines 199-216): when more than five backup
branches exist, delete all but the five most recent. -/
def cleanupBackupBranch (st : GitState) : GitState × List Event :=
  let backups := st.branches.filter (fun b => strIncludes b backupMarker)
  if 5 < backups.length then
    let old := backups.take (backups.length - 5)
    (⟨st.branches.filter (fun b => !old.contains b), st.commits⟩,
      old.map Event.deleteLocalBranch)
  else (st, [])

/-- The fallback loop `removeCommitsUsingRebase` (lines 182-194): splice each
commit individually; a failing splice is caught and does not stop the loop. -/
def removeCommitsUsingRebase (env : Env) :
    List LogEntry → GitState → GitState × List Event
  | [], st => (st, [])
  | c :: rest, st =>
      let st1 : GitState :=
        if env.rebaseOk c.hash then
          ⟨st.branches, st.commits.filter (fun k => k.hash != c.hash)⟩
        else st
      let r := removeCommitsUsingRebase env rest st1
      (r.1, Event.rebaseOnto c.hash :: r.2)

/-- `removeCommitsUsingFilter` (lines 137-176): one bulk filter-branch; on
success a best-effort push whose failure is caught; on filter-branch failure
fall back to the sequential rebase loop. -/
def removeCommitsUsingFilter (env : Env) (commits : List LogEntry)
    (st : GitState) : GitState × List Event :=
  let hashes := commits.map (fun c => c.hash)
  if env.filterOk then
    (⟨st.branches, st.commits.filter (fun c => !hashes.contains c.hash)⟩,
      [Event.filterBranch hashes, Event.push])
  else
    let r := removeCommitsUsingRebase env commits st
    (r.1, Event.filterBranch hashes :: r.2)

/-- Line 75, `log.latest ? [log.latest, ...log.all] : log.all`: the most
recent entry is prepended again when the log is nonempty. -/
def logEntriesOf : List LogEntry → List LogEntry
  | [] => []
  | h :: t => h :: h :: t

/-- The matching filter of lines 77-81: keep entries whose raw date string
contains the formatted target date. -/
def matchingCommits (today : Date) (commits : List LogEntry) (x y : Int) :
    List LogEntry :=
  (logEntriesOf commits).filter
    (fun c =>
      strIncludes c.date (formatDate (resolveDate today x.toNat y.toNat)))

/-- Result of one invocation: final repository state, the trace of issued
calls, and the returned/thrown value (`dryRun` returns the match list). -/
structure RunResult where
  state : GitState
  trace : List Event
  result : Except String (Option (List LogEntry))
deriving Repr

/-- `removeCommitByCoordinates` (lines 34-130) with explicit state and an
explicit trace of issued calls. Branch creation only touches the branch
list, so the `git.log` read after it sees the commit log of the entry
state. -/
def removeCommitByCoordinates (x y : Int) (opts : Options) (env : Env)
    (st : GitState) : RunResult :=
  if x < 0 ∨ 54 < x then
    ⟨st, [], .error "X coordinate must be between 0 and 54 (weeks)"⟩
  else if y < 0 ∨ 6 < y then
    ⟨st, [], .error "Y coordinate must be between 0 and 6 (days)"⟩
  else
    let created := opts.backup && !opts.dryRun
    let st1 : GitState :=
      if created then ⟨st.branches ++ [env.backupName], st.commits⟩ else st
    let ev1 : List Event :=
      if created then
        [Event.checkoutLocalBranch env.backupName, Event.checkout "main"]
      else []
    let matching := matchingCommits env.today st.commits x y
    if matching = [] then
      let c := if opts.backup then cleanupBackupBranch st1 else (st1, [])
      ⟨c.1, ev1 ++ c.2, .ok none⟩
    else if opts.dryRun then
      ⟨st1, ev1, .ok (some matching)⟩
    else if opts.interactive && !opts.force then
      if env.confirm then
        let f := removeCommitsUsingFilter env matching st1
        ⟨f.1, ev1 ++ Event.askConfirm :: f.2, .ok none⟩
      else
        let c := if opts.backup then cleanupBackupBranch st1 else (st1, [])
        ⟨c.1, ev1 ++ Event.askConfirm :: c.2, .ok none⟩
    else
      let f := removeCommitsUsingFilter env matching st1
      ⟨f.1, ev1 ++ f.2, .ok none⟩

/-- `removeCommitPattern` (lines 223-239): per coordinate, call the removal
with the caller's options overridden by `interactive: false, backup: false`;
a thrown validation error propagates and stops the loop. -/
def removeCommitPattern (opts : Options) (env : Env) :
    List (Int × Int) → GitState → GitState × List Event × Except String Unit
  | [], st => (st, [], .ok ())
  | coord :: rest, st =>
      let r := removeCommitByCoordinates coord.1 coord.2
        {opts with interactive := false, backup := false} env st
      match r.result with
      | .error e => (r.state, r.trace, .error e)
      | .ok _ =>
          let q := removeCommitPattern opts env rest r.state
          (q.1, r.trace ++ q.2.1, q.2.2)

end Advanced

/-! ## Single-commit removal (`removeSingleCommit.js`, lines 127-186) -/

namespace SingleRemoval

/-- Outcome report of the single-commit removal: the removed identifier and
the matching identifiers that remain (the source's "will remain" note). -/
structure RemovalOutcome where
  removed : List String
  skipped : List String
deriving DecidableEq, Repr

/-- Result of one invocation: the commit log, the trace of issued calls, and
the outcome (the source logs the error it catches; we return it). -/
structure RunResult where
  commits : List CommitRecord
  trace : List Advanced.Event
  result : Except String RemovalOutcome
deriving Repr

/-- `removeSingleCommitByCoordinates` (lines 127-186): validate, resolve the
target date, filter the log, and with `force` remove only the first match
with a single rebase call; the other matches remain untouched. -/
def removeSingleCommitByCoordinates (x y : Int) (force : Bool)
    (env : Advanced.Env) (commits : List CommitRecord) : RunResult :=
  if x < 0 ∨ 54 < x then
    ⟨commits, [], .error "X coordinate must be between 0 and 54 (weeks)"⟩
  else if y < 0 ∨ 6 < y then
    ⟨commits, [], .error "Y coordinate must be between 0 and 6 (days)"⟩
  else
    match selectByDate commits (resolveDate env.today x.toNat y.toNat) with
    | [] => ⟨commits, [], .ok ⟨[], []⟩⟩
    | c :: rest =>
      if force then
        if env.rebaseOk c.hash then
          ⟨commits.filter (fun k => k.hash != c.hash),
            [Advanced.Event.rebaseOnto c.hash],
            .ok ⟨[c.hash], rest.map (fun k => k.hash)⟩⟩
        else
          ⟨commits, [Advanced.Event.rebaseOnto c.hash],
            .error ("Error removing commit " ++ c.hash)⟩
      else
        ⟨commits, [], .ok ⟨[], (c :: rest).map (fun k => k.hash)⟩⟩

end SingleRemoval

/-! ## Theorems -/

theorem daysInMonth_bounds (y m : Nat) :
    28 ≤ daysInMonth y m ∧ daysInMonth y m ≤ 31 := by
  unfold daysInMonth
  split <;> first | (split <;> omega) | omega

theorem valid_nextDay {d : Date} (h : ValidDate d) : ValidDate (nextDay d) := by
  obtain ⟨h1, h2, h3, h4⟩ := h
  have hb := daysInMonth_bounds d.year d.month
  by_cases hlt : d.day < daysInMonth d.year d.month
  · rw [show nextDay d = ⟨d.year, d.month, d.day + 1⟩ by simp [nextDay, hlt]]
    refine ⟨h1, h2, ?_, ?_⟩
    · show 1 ≤ d.day + 1
      omega
    · show d.day + 1 ≤ daysInMonth d.year d.month
      omega
  · by_cases hm : d.month < 12
    · rw [show nextDay d = ⟨d.year, d.month + 1, 1⟩ by simp [nextDay, hlt, hm]]
      have hb2 := daysInMonth_bounds d.year (d.month + 1)
      refine ⟨?_, ?_, ?_, ?_⟩
      · show 1 ≤ d.month + 1
        omega
      · show d.month + 1 ≤ 12
        omega
      · show 1 ≤ (1 : Nat)
        omega
      · show 1 ≤ daysInMonth d.year (d.month + 1)
        omega
    · rw [show nextDay d = ⟨d.year + 1, 1, 1⟩ by simp [nextDay, hlt, hm]]
      have hb3 := daysInMonth_bounds (d.year + 1) 1
      refine ⟨?_, ?_, ?_, ?_⟩
      · show 1 ≤ (1 : Nat)
        omega
      · show (1 : Nat) ≤ 12
        omega
      · show 1 ≤ (1 : Nat)
        omega
      · show 1 ≤ daysInMonth (d.year + 1) 1
        omega

theorem toN_nextDay {d : Date} (h : ValidDate d) : toN d < toN (nextDay d) := by
  obtain ⟨h1, h2, h3, h4⟩ := h
  have hb := daysInMonth_bounds d.year d.month
  by_cases hlt : d.day < daysInMonth d.year d.month
  · rw [show nextDay d = ⟨d.year, d.month, d.day + 1⟩ by simp [nextDay, hlt]]
    show 500 * d.year + 31 * d.month + d.day <
      500 * d.year + 31 * d.month + (d.day + 1)
    omega
  · by_cases hm : d.month < 12
    · rw [show nextDay d = ⟨d.year, d.month + 1, 1⟩ by simp [nextDay, hlt, hm]]
      show 500 * d.year + 31 * d.month + d.day <
        500 * d.year + 31 * (d.month + 1) + 1
      omega
    · rw [show nextDay d = ⟨d.year + 1, 1, 1⟩ by simp [nextDay, hlt, hm]]
      show 500 * d.year + 31 * d.month + d.day <
        500 * (d.year + 1) + 31 * 1 + 1
      omega

theorem valid_addDays {d : Date} (h : ValidDate d) (n : Nat) :
    ValidDate (addDays d n) := by
  induction n with
  | zero => exact h
  | succ k ih => exact valid_nextDay ih

theorem addDays_add (d : Date) (m n : Nat) :
    addDays (addDays d m) n = addDays d (m + n) := by
  induction n with
  | zero => rfl
  | succ k ih => simp [addDays, ih]

theorem toN_addDays_lt {d : Date} (h : ValidDate d) {n : Nat} (hn : 0 < n) :
    toN d < toN (addDays d n) := by
  induction n with
  | zero => omega
  | succ k ih =>
    rcases Nat.eq_zero_or_pos k with hk | hk
    · subst hk; exact toN_nextDay h
    · have := toN_nextDay (valid_addDays h k)
      have := ih hk
      simp only [addDays]
      omega

theorem addDays_injective {d : Date} (h : ValidDate d) {m n : Nat}
    (heq : addDays d m = addDays d n) : m = n := by
  rcases Nat.lt_trichotomy m n with hlt | heqmn | hgt
  · exfalso
    have hv := valid_addDays h m
    have hlt2 : toN (addDays d m) < toN (addDays (addDays d m) (n - m)) :=
      toN_addDays_lt hv (by omega)
    rw [addDays_add, Nat.add_sub_cancel' (Nat.le_of_lt hlt)] at hlt2
    rw [heq] at hlt2
    exact absurd hlt2 (lt_irrefl _)
  · exact heqmn
  · exfalso
    have hv := valid_addDays h n
    have hlt2 : toN (addDays d n) < toN (addDays (addDays d n) (m - n)) :=
      toN_addDays_lt hv (by omega)
    rw [addDays_add, Nat.add_sub_cancel' (Nat.le_of_lt hgt)] at hlt2
    rw [heq] at hlt2
    exact absurd hlt2 (lt_irrefl _)

theorem valid_subYears {d : Date} (h : ValidDate d) (n : Nat) :
    ValidDate (subYears d n) := by
  obtain ⟨h1, h2, h3, h4⟩ := h
  have hb := daysInMonth_bounds (d.year - n) d.month
  refine ⟨h1, h2, ?_, ?_⟩
  · show 1 ≤ min d.day (daysInMonth (d.year - n) d.month)
    omega
  · show min d.day (daysInMonth (d.year - n) d.month) ≤
      daysInMonth (d.year - n) d.month
    omega

theorem resolveDate_eq_anchor_add (ref : Date) (x y : Nat) :
    resolveDate ref x y = addDays (anchorOf ref) (7 * x + y) := by
  unfold resolveDate
  rw [addDays_add]

theorem valid_anchorOf {ref : Date} (h : ValidDate ref) :
    ValidDate (anchorOf ref) :=
  valid_addDays (valid_subYears h 1) 1

theorem mem_selectByDate (commits : List CommitRecord) (target : Date)
    (c : CommitRecord) :
    c ∈ selectByDate commits target ↔
      c ∈ commits ∧ dateOnly c.timestamp = target := by
  simp [selectByDate, List.mem_filter]

/-- C1: for every in-range coordinate pair, resolution is deterministic and
yields exactly (reference minus one year plus one day) plus week*7+day days;
concretely, from reference 2025-01-15, (0,0) resolves to 2024-01-16 and
(1,2) resolves to 2024-01-25. -/
theorem c1_resolve_spec :
    (∀ (ref : Date) (x y : Int), 0 ≤ x → x ≤ 54 → 0 ≤ y → y ≤ 6 →
      resolveCoordinates ref x y =
        .ok (addDays (anchorOf ref) (x.toNat * 7 + y.toNat))) ∧
    resolveCoordinates ⟨2025, 1, 15⟩ 0 0 = .ok ⟨2024, 1, 16⟩ ∧
    resolveCoordinates ⟨2025, 1, 15⟩ 1 2 = .ok ⟨2024, 1, 25⟩ := by
  refine ⟨?_, rfl, rfl⟩
  intro ref x y hx0 hx54 hy0 hy6
  unfold resolveCoordinates
  rw [if_neg (by omega), if_neg (by omega), resolveDate_eq_anchor_add,
    Nat.mul_comm]

/-- Witness for C1 at (week, day) = (3, 4). -/
theorem c1_resolve_spec_witness :
    resolveCoordinates ⟨2025, 1, 15⟩ 3 4 =
      .ok (addDays (anchorOf ⟨2025, 1, 15⟩)
        ((3 : Int).toNat * 7 + (4 : Int).toNat)) :=
  c1_resolve_spec.1 ⟨2025, 1, 15⟩ 3 4 (by decide) (by decide) (by decide)
    (by decide)

/-- C5: any out-of-range week or day (including 55, 7 and negatives) makes
resolution fail, with the error message naming the violated axis (the X
message when the week bound is violated, else the Y message), and no date is
computed. -/
theorem c5_validation (ref : Date) (x y : Int)
    (h : x < 0 ∨ 54 < x ∨ y < 0 ∨ 6 < y) :
    resolveCoordinates ref x y =
      .error (if x < 0 ∨ 54 < x then
                "X coordinate must be between 0 and 54 (weeks)"
              else
                "Y coordinate must be between 0 and 6 (days)") := by
  unfold resolveCoordinates
  by_cases hx : x < 0 ∨ 54 < x
  · rw [if_pos hx, if_pos hx]
  · rw [if_neg hx, if_neg hx, if_pos (by omega)]

/-- Witness for C5 at week = 55. -/
theorem c5_validation_witness :
    ((55 : Int) < 0 ∨ 54 < (55 : Int) ∨ (0 : Int) < 0 ∨ 6 < (0 : Int)) ∧
    resolveCoordinates ⟨2025, 1, 15⟩ 55 0 =
      .error (if (55 : Int) < 0 ∨ 54 < (55 : Int) then
                "X coordinate must be between 0 and 54 (weeks)"
              else
                "Y coordinate must be between 0 and 6 (days)") :=
  ⟨by decide, c5_validation ⟨2025, 1, 15⟩ 55 0 (by decide)⟩

/-- C6: selection returns exactly the commits whose date-only timestamp
equals the target date (ignoring time-of-day), in input order (the result is
a sublist of the input). -/
theorem c6_selectByDate_spec (commits : List CommitRecord) (target : Date) :
    List.Sublist (selectByDate commits target) commits ∧
    ∀ c : CommitRecord,
      c ∈ selectByDate commits target ↔
        c ∈ commits ∧ dateOnly c.timestamp = target :=
  ⟨List.filter_sublist commits, mem_selectByDate commits target⟩

/-- C7: on a list with more than one match, the single-commit mode returns
exactly one record, namely the head of the full selection, and that record
matches the target date. -/
theorem c7_selectFirst_spec (commits : List CommitRecord) (target : Date)
    (h : 1 < (selectByDate commits target).length) :
    ∃ a rest, selectByDate commits target = a :: rest ∧
      selectFirstByDate commits target = some a ∧
      a ∈ commits ∧ dateOnly a.timestamp = target := by
  rcases hsel : selectByDate commits target with _ | ⟨a, rest⟩
  · rw [hsel] at h
    simp at h
  · have hmem : a ∈ selectByDate commits target := by
      rw [hsel]
      exact List.mem_cons_self a rest
    rw [mem_selectByDate] at hmem
    exact ⟨a, rest, rfl, by simp [selectFirstByDate, hsel], hmem.1, hmem.2⟩

/-- Witness for C7: three commits, two matching 2024-01-16. -/
theorem c7_selectFirst_spec_witness :
    1 < (selectByDate
      [⟨"a", "m1", ⟨⟨2024, 1, 16⟩, 600⟩⟩, ⟨"b", "m2", ⟨⟨2024, 1, 16⟩, 1080⟩⟩,
        ⟨"c", "m3", ⟨⟨2024, 1, 17⟩, 0⟩⟩] ⟨2024, 1, 16⟩).length ∧
    ∃ a rest, selectByDate
      [⟨"a", "m1", ⟨⟨2024, 1, 16⟩, 600⟩⟩, ⟨"b", "m2", ⟨⟨2024, 1, 16⟩, 1080⟩⟩,
        ⟨"c", "m3", ⟨⟨2024, 1, 17⟩, 0⟩⟩] ⟨2024, 1, 16⟩ = a :: rest ∧
      selectFirstByDate
        [⟨"a", "m1", ⟨⟨2024, 1, 16⟩, 600⟩⟩, ⟨"b", "m2", ⟨⟨2024, 1, 16⟩, 1080⟩⟩,
          ⟨"c", "m3", ⟨⟨2024, 1, 17⟩, 0⟩⟩] ⟨2024, 1, 16⟩ = some a ∧
      a ∈ [⟨"a", "m1", ⟨⟨2024, 1, 16⟩, 600⟩⟩, ⟨"b", "m2", ⟨⟨2024, 1, 16⟩, 1080⟩⟩,
        ⟨"c", "m3", ⟨⟨2024, 1, 17⟩, 0⟩⟩] ∧ dateOnly a.timestamp = ⟨2024, 1, 16⟩ :=
  ⟨by decide, c7_selectFirst_spec _ _ (by decide)⟩

theorem mem_gridCoords (c : Nat × Nat) :
    c ∈ gridCoords ↔ c.1 < 55 ∧ c.2 < 7 := by
  cases c with
  | mk x y =>
    simp [gridCoords, List.mem_flatMap, List.mem_map, List.mem_range]

theorem find_first_unique {α : Type} {p : α → Bool} {l : List α} {a : α}
    (ha : a ∈ l) (hpa : p a = true)
    (huniq : ∀ b ∈ l, p b = true → b = a) : l.find? p = some a := by
  induction l with
  | nil => cases ha
  | cons h t ih =>
    by_cases hph : p h = true
    · have : h = a := huniq h (List.mem_cons_self h t) hph
      subst this
      simp [List.find?, hph]
    · have hat : a ∈ t := by
        rcases List.mem_cons.mp ha with heq | hmem
        · subst heq
          exact absurd hpa hph
        · exact hmem
      have := ih hat (fun b hb hpb => huniq b (List.mem_cons_of_mem h hb) hpb)
      simp [List.find?, hph, this]

theorem resolveDate_inj {ref : Date} (hv : ValidDate ref) {x y u v : Nat}
    (hy : y < 7) (hv7 : v < 7)
    (heq : resolveDate ref x y = resolveDate ref u v) : x = u ∧ y = v := by
  rw [resolveDate_eq_anchor_add, resolveDate_eq_anchor_add] at heq
  have := addDays_injective (valid_anchorOf hv) heq
  omega

/-- C9: resolution and coordinate search are mutually inverse over the grid:
searching for the date resolved from in-range coordinates (x, y) under the
same reference instant returns exactly (x, y). -/
theorem c9_findCoordinates_inverse (ref : Date) (x y : Nat)
    (hv : ValidDate ref) (hx : x ≤ 54) (hy : y ≤ 6) :
    findCoordinatesForDate ref (resolveDate ref x y) = some (x, y) := by
  unfold findCoordinatesForDate
  apply find_first_unique
  · rw [mem_gridCoords]
    exact ⟨by omega, by omega⟩
  · simp
  · intro b hb hpb
    rw [mem_gridCoords] at hb
    rw [beq_iff_eq] at hpb
    have := resolveDate_inj hv (by omega) (by omega) hpb
    cases b with
    | mk u v =>
      simp only at this
      simp [this.1, this.2]

/-- Witness for C9 at reference 2025-01-15 and (x, y) = (1, 2). -/
theorem c9_findCoordinates_inverse_witness :
    ValidDate ⟨2025, 1, 15⟩ ∧
    findCoordinatesForDate ⟨2025, 1, 15⟩
      (resolveDate ⟨2025, 1, 15⟩ 1 2) = some (1, 2) :=
  ⟨by decide, c9_findCoordinates_inverse ⟨2025, 1, 15⟩ 1 2 (by decide)
    (by decide) (by decide)⟩

namespace Advanced

theorem cleanup_commits (st : GitState) :
    (cleanupBackupBranch st).1.commits = st.commits := by
  simp only [cleanupBackupBranch]
  split <;> rfl

theorem cleanup_events (st : GitState) (e : Event)
    (he : e ∈ (cleanupBackupBranch st).2) :
    ∃ b, e = Event.deleteLocalBranch b ∧ strIncludes b backupMarker = true := by
  simp only [cleanupBackupBranch] at he
  split at he
  · simp only [List.mem_map] at he
    obtain ⟨b, hb, rfl⟩ := he
    refine ⟨b, rfl, ?_⟩
    have hb2 : b ∈ st.branches.filter (fun b => strIncludes b backupMarker) :=
      List.mem_of_mem_take hb
    exact (List.mem_filter.mp hb2).2
  · cases he

theorem cleanup_events_not_rewrite (st : GitState) (e : Event)
    (he : e ∈ (cleanupBackupBranch st).2) : e.isRewrite = false := by
  obtain ⟨b, rfl, hbm⟩ := cleanup_events st e he
  rfl

theorem rebase_trace (env : Env) (commits : List LogEntry) (st : GitState) :
    (removeCommitsUsingRebase env commits st).2 =
      commits.map (fun c => Event.rebaseOnto c.hash) := by
  induction commits generalizing st with
  | nil => rfl
  | cons c rest ih => simp [removeCommitsUsingRebase, ih]

theorem filter_trace (env : Env) (commits : List LogEntry) (st : GitState) :
    (removeCommitsUsingFilter env commits st).2 =
      if env.filterOk then
        [Event.filterBranch (commits.map (fun c => c.hash)), Event.push]
      else
        Event.filterBranch (commits.map (fun c => c.hash)) ::
          commits.map (fun c => Event.rebaseOnto c.hash) := by
  simp only [removeCommitsUsingFilter]
  split <;> simp_all [rebase_trace]

/-- C4: a failure of the bulk filter-branch strategy triggers automatic
fallback to the sequential rebase strategy, and the fallback attempts a
splice for every identifier in the batch, whatever the per-identifier
outcomes are. -/
theorem c4_fallback_all_attempted (env : Env) (commits : List LogEntry)
    (st : GitState) (h : env.filterOk = false) :
    (removeCommitsUsingFilter env commits st).2 =
      Event.filterBranch (commits.map (fun c => c.hash)) ::
        commits.map (fun c => Event.rebaseOnto c.hash) := by
  rw [filter_trace, h]
  simp

/-- Witness for C4: two commits, filter-branch failing, every splice
failing: both splices are still attempted. -/
theorem c4_fallback_all_attempted_witness :
    (Env.mk ⟨2025, 1, 15⟩ "b" true false (fun _ => false) true).filterOk
        = false ∧
    (removeCommitsUsingFilter
      ⟨⟨2025, 1, 15⟩, "b", true, false, fun _ => false, true⟩
      [⟨"h1", "m1", "2024-01-16"⟩, ⟨"h2", "m2", "2024-01-16"⟩]
      ⟨["main"],
        [⟨"h1", "m1", "2024-01-16"⟩, ⟨"h2", "m2", "2024-01-16"⟩]⟩).2 =
      Event.filterBranch ["h1", "h2"] ::
        [Event.rebaseOnto "h1", Event.rebaseOnto "h2"] :=
  ⟨rfl, c4_fallback_all_attempted _ _ _ rfl⟩

/-- C2 (amended): with dryRun=true the removal issues no branch creation, no
rebase, no filter-branch and no push, and leaves the commit log untouched;
its trace is empty whenever the selection is nonempty, and the only calls it
can issue are deletions of stale backup branches by the zero-match cleanup
when backup is enabled. -/
theorem c2_dryRun_amended (x y : Int) (opts : Options) (env : Env)
    (st : GitState) (hd : opts.dryRun = true) :
    (∀ e ∈ (removeCommitByCoordinates x y opts env st).trace,
      ∃ b, e = Event.deleteLocalBranch b ∧ strIncludes b backupMarker = true) ∧
    (removeCommitByCoordinates x y opts env st).state.commits = st.commits ∧
    (matchingCommits env.today st.commits x y ≠ [] →
      (removeCommitByCoordinates x y opts env st).trace = [] ∧
      (removeCommitByCoordinates x y opts env st).state = st) := by
  by_cases hx : x < 0 ∨ 54 < x
  · simp [removeCommitByCoordinates, hx]
  by_cases hy : y < 0 ∨ 6 < y
  · simp [removeCommitByCoordinates, hx, hy]
  have hrun : removeCommitByCoordinates x y opts env st =
      if matchingCommits env.today st.commits x y = [] then
        (if opts.backup then
          ⟨(cleanupBackupBranch st).1, (cleanupBackupBranch st).2, .ok none⟩
        else ⟨st, [], .ok none⟩)
      else ⟨st, [], .ok (some (matchingCommits env.today st.commits x y))⟩ := by
    unfold removeCommitByCoordinates
    rw [if_neg hx, if_neg hy, hd]
    simp
    split
    · split <;> rfl
    · rfl
  rw [hrun]
  by_cases hm : matchingCommits env.today st.commits x y = []
  · rw [if_pos hm]
    by_cases hb : opts.backup = true
    · rw [if_pos hb]
      exact ⟨fun e he => cleanup_events st e he, cleanup_commits st,
        fun h => absurd hm h⟩
    · rw [if_neg hb]
      exact ⟨by simp, rfl, fun h => absurd hm h⟩
  · rw [if_neg hm]
    exact ⟨by simp, rfl, fun h => ⟨rfl, rfl⟩⟩

/-- Witness for C2 (amended) on a dry run with an empty log. -/
theorem c2_dryRun_amended_witness :
    (∀ e ∈ (removeCommitByCoordinates 10 3 ⟨false, true, true, true⟩
        ⟨⟨2025, 1, 15⟩, "b", false, true, fun _ => true, true⟩
        ⟨["main"], []⟩).trace,
      ∃ b, e = Event.deleteLocalBranch b ∧ strIncludes b backupMarker = true) ∧
    (removeCommitByCoordinates 10 3 ⟨false, true, true, true⟩
        ⟨⟨2025, 1, 15⟩, "b", false, true, fun _ => true, true⟩
        ⟨["main"], []⟩).state.commits = [] ∧
    (matchingCommits ⟨2025, 1, 15⟩ [] 10 3 ≠ [] →
      (removeCommitByCoordinates 10 3 ⟨false, true, true, true⟩
        ⟨⟨2025, 1, 15⟩, "b", false, true, fun _ => true, true⟩
        ⟨["main"], []⟩).trace = [] ∧
      (removeCommitByCoordinates 10 3 ⟨false, true, true, true⟩
        ⟨⟨2025, 1, 15⟩, "b", false, true, fun _ => true, true⟩
        ⟨["main"], []⟩).state = ⟨["main"], []⟩) :=
  c2_dryRun_amended 10 3 ⟨false, true, true, true⟩
    ⟨⟨2025, 1, 15⟩, "b", false, true, fun _ => true, true⟩ ⟨["main"], []⟩ rfl

/-- Counterexample to C2 as stated: a dry run (dryRun=true, backup=true) on
a zero-match log with six stale backup branches issues a branch deletion, a
mutating History Store call. -/
theorem c2_dryRun_counterexample :
    ((removeCommitByCoordinates 10 3 ⟨false, true, true, true⟩
      ⟨⟨2025, 1, 15⟩, "backup-before-removal-7", false, true,
        fun _ => true, true⟩
      ⟨["backup-before-removal-1", "backup-before-removal-2",
        "backup-before-removal-3", "backup-before-removal-4",
        "backup-before-removal-5", "backup-before-removal-6"],
        []⟩).trace.filter Event.isMutating) ≠ [] := by
  decide

/-- C3 (amended): a non-dry-run removal whose interactive confirmation is
declined removes nothing: the commit log is unchanged and no
history-rewriting call (filter-branch, rebase, push) is issued; when no
backup was requested the state is exactly the invocation state. -/
theorem c3_decline_amended (x y : Int) (opts : Options) (env : Env)
    (st : GitState) (hdr : opts.dryRun = false) (hi : opts.interactive = true)
    (hf : opts.force = false) (hc : env.confirm = false) :
    (removeCommitByCoordinates x y opts env st).state.commits = st.commits ∧
    (∀ e ∈ (removeCommitByCoordinates x y opts env st).trace,
      e.isRewrite = false) ∧
    (opts.backup = false →
      (removeCommitByCoordinates x y opts env st).state = st) := by
  by_cases hx : x < 0 ∨ 54 < x
  · simp [removeCommitByCoordinates, hx]
  by_cases hy : y < 0 ∨ 6 < y
  · simp [removeCommitByCoordinates, hx, hy]
  by_cases hb : opts.backup = true
  · have hrun : removeCommitByCoordinates x y opts env st =
        if matchingCommits env.today st.commits x y = [] then
          ⟨(cleanupBackupBranch ⟨st.branches ++ [env.backupName],
              st.commits⟩).1,
            [Event.checkoutLocalBranch env.backupName, Event.checkout "main"]
              ++ (cleanupBackupBranch ⟨st.branches ++ [env.backupName],
                st.commits⟩).2, .ok none⟩
        else
          ⟨(cleanupBackupBranch ⟨st.branches ++ [env.backupName],
              st.commits⟩).1,
            [Event.checkoutLocalBranch env.backupName, Event.checkout "main"]
              ++ Event.askConfirm ::
                (cleanupBackupBranch ⟨st.branches ++ [env.backupName],
                  st.commits⟩).2, .ok none⟩ := by
      unfold removeCommitByCoordinates
      rw [if_neg hx, if_neg hy, hdr, hi, hf, hc, hb]
      simp
    rw [hrun]
    by_cases hm : matchingCommits env.today st.commits x y = []
    · rw [if_pos hm]
      refine ⟨by rw [cleanup_commits], ?_, fun hbf => by rw [hb] at hbf; cases hbf⟩
      intro e he
      rcases List.mem_append.mp he with h2 | h2
      · rcases List.mem_cons.mp h2 with h3 | h3
        · rw [h3]
          rfl
        · rcases List.mem_cons.mp h3 with h4 | h4
          · rw [h4]
            rfl
          · cases h4
      · exact cleanup_events_not_rewrite _ e h2
    · rw [if_neg hm]
      refine ⟨by rw [cleanup_commits], ?_, fun hbf => by rw [hb] at hbf; cases hbf⟩
      intro e he
      rcases List.mem_append.mp he with h2 | h2
      · rcases List.mem_cons.mp h2 with h3 | h3
        · rw [h3]
          rfl
        · rcases List.mem_cons.mp h3 with h4 | h4
          · rw [h4]
            rfl
          · cases h4
      · rcases List.mem_cons.mp h2 with h3 | h3
        · rw [h3]
          rfl
        · exact cleanup_events_not_rewrite _ e h3
  · have hbf : opts.backup = false := by
      cases hq : opts.backup
      · rfl
      · exact absurd hq hb
    have hrun : removeCommitByCoordinates x y opts env st =
        if matchingCommits env.today st.commits x y = [] then
          ⟨st, [], .ok none⟩
        else ⟨st, [Event.askConfirm], .ok none⟩ := by
      unfold removeCommitByCoordinates
      rw [if_neg hx, if_neg hy, hdr, hi, hf, hc, hbf]
      simp
    rw [hrun]
    by_cases hm : matchingCommits env.today st.commits x y = []
    · rw [if_pos hm]
      exact ⟨rfl, by simp, fun _ => rfl⟩
    · rw [if_neg hm]
      refine ⟨rfl, ?_, fun _ => rfl⟩
      intro e he
      rcases List.mem_cons.mp he with h3 | h3
      · rw [h3]
        rfl
      · cases h3

/-- Witness for C3 (amended) on a declined confirmation with one matching
commit and backup disabled. -/
theorem c3_decline_amended_witness :
    (removeCommitByCoordinates 0 0 ⟨false, true, false, false⟩
      ⟨⟨2025, 1, 15⟩, "b", false, true, fun _ => true, true⟩
      ⟨["main"], [⟨"abc123", "msg", "2024-01-16"⟩]⟩).state.commits =
        [⟨"abc123", "msg", "2024-01-16"⟩] ∧
    (∀ e ∈ (removeCommitByCoordinates 0 0 ⟨false, true, false, false⟩
      ⟨⟨2025, 1, 15⟩, "b", false, true, fun _ => true, true⟩
      ⟨["main"], [⟨"abc123", "msg", "2024-01-16"⟩]⟩).trace,
      e.isRewrite = false) ∧
    ((⟨false, true, false, false⟩ : Options).backup = false →
      (removeCommitByCoordinates 0 0 ⟨false, true, false, false⟩
        ⟨⟨2025, 1, 15⟩, "b", false, true, fun _ => true, true⟩
        ⟨["main"], [⟨"abc123", "msg", "2024-01-16"⟩]⟩).state =
          ⟨["main"], [⟨"abc123", "msg", "2024-01-16"⟩]⟩) :=
  c3_decline_amended 0 0 ⟨false, true, false, false⟩
    ⟨⟨2025, 1, 15⟩, "b", false, true, fun _ => true, true⟩
    ⟨["main"], [⟨"abc123", "msg", "2024-01-16"⟩]⟩ rfl rfl rfl rfl

/-- Counterexample to C3 as stated: with backup=true (the default), the
backup branch created before the prompt survives a declined confirmation, so
the History Store state is not identical to the state at invocation. -/
theorem c3_decline_counterexample :
    (removeCommitByCoordinates 0 0 ⟨false, true, false, true⟩
      ⟨⟨2025, 1, 15⟩, "backup-before-removal-77", false, true,
        fun _ => true, true⟩
      ⟨["main"], [⟨"abc123", "msg", "2024-01-16"⟩]⟩).state ≠
      ⟨["main"], [⟨"abc123", "msg", "2024-01-16"⟩]⟩ := by
  decide

theorem noninteractive_events (x y : Int) (opts : Options) (env : Env)
    (st : GitState) (hi : opts.interactive = false) (hb : opts.backup = false) :
    ∀ e ∈ (removeCommitByCoordinates x y opts env st).trace,
      e ≠ Event.askConfirm ∧ ∀ b, e ≠ Event.checkoutLocalBranch b := by
  by_cases hx : x < 0 ∨ 54 < x
  · simp [removeCommitByCoordinates, hx]
  by_cases hy : y < 0 ∨ 6 < y
  · simp [removeCommitByCoordinates, hx, hy]
  have hrun : removeCommitByCoordinates x y opts env st =
      if matchingCommits env.today st.commits x y = [] then
        ⟨st, [], .ok none⟩
      else if opts.dryRun = true then
        ⟨st, [], .ok (some (matchingCommits env.today st.commits x y))⟩
      else
        ⟨(removeCommitsUsingFilter env
            (matchingCommits env.today st.commits x y) st).1,
          (removeCommitsUsingFilter env
            (matchingCommits env.today st.commits x y) st).2, .ok none⟩ := by
    unfold removeCommitByCoordinates
    rw [if_neg hx, if_neg hy, hi, hb]
    simp
  rw [hrun]
  by_cases hm : matchingCommits env.today st.commits x y = []
  · rw [if_pos hm]
    simp
  · rw [if_neg hm]
    by_cases hd : opts.dryRun = true
    · rw [if_pos hd]
      simp
    · rw [if_neg hd]
      intro e he
      have ht := filter_trace env (matchingCommits env.today st.commits x y) st
      rw [ht] at he
      by_cases hfo : env.filterOk = true
      · rw [if_pos hfo] at he
        rcases List.mem_cons.mp he with h3 | h3
        · rw [h3]
          simp
        · rcases List.mem_cons.mp h3 with h4 | h4
          · rw [h4]
            simp
          · cases h4
      · rw [if_neg hfo] at he
        rcases List.mem_cons.mp he with h3 | h3
        · rw [h3]
          simp
        · rw [List.mem_map] at h3
          obtain ⟨c, hc, rfl⟩ := h3
          simp

/-- C10: pattern removal calls the per-coordinate removal with
interactive=false and backup=false overriding the caller's options, so no
confirmation prompt is ever issued and no backup branch is ever created,
whatever options the caller passed. -/
theorem c10_pattern_no_prompt_no_backup (opts : Options) (env : Env)
    (pattern : List (Int × Int)) (st : GitState) :
    ∀ e ∈ (removeCommitPattern opts env pattern st).2.1,
      e ≠ Event.askConfirm ∧ ∀ b, e ≠ Event.checkoutLocalBranch b := by
  induction pattern generalizing st with
  | nil => simp [removeCommitPattern]
  | cons coord rest ih =>
    intro e he
    simp only [removeCommitPattern] at he
    rcases hres : (removeCommitByCoordinates coord.1 coord.2
        {opts with interactive := false, backup := false} env st).result with
      herr | hok
    · rw [hres] at he
      simp only at he
      exact noninteractive_events coord.1 coord.2
        {opts with interactive := false, backup := false} env st rfl rfl e he
    · rw [hres] at he
      simp only at he
      rcases List.mem_append.mp he with h2 | h2
      · exact noninteractive_events coord.1 coord.2
          {opts with interactive := false, backup := false} env st rfl rfl e h2
      · exact ih _ e h2

/-- Witness for C10: a one-coordinate pattern under a caller who asked for
interactive and backup; the filter-branch path still runs a push, and that
event is neither a prompt nor a branch creation. -/
theorem c10_pattern_no_prompt_no_backup_witness :
    Event.push ∈ (removeCommitPattern ⟨true, true, false, true⟩
      ⟨⟨2025, 1, 15⟩, "n", true, true, fun _ => true, true⟩
      [(0, 0)] ⟨["main"], [⟨"abc123", "msg", "2024-01-16"⟩]⟩).2.1 ∧
    (Event.push ≠ Event.askConfirm ∧
      ∀ b, Event.push ≠ Event.checkoutLocalBranch b) :=
  ⟨by decide, c10_pattern_no_prompt_no_backup ⟨true, true, false, true⟩
    ⟨⟨2025, 1, 15⟩, "n", true, true, fun _ => true, true⟩
    [(0, 0)] ⟨["main"], [⟨"abc123", "msg", "2024-01-16"⟩]⟩ Event.push
    (by decide)⟩

end Advanced

namespace SingleRemoval

/-- C8: on a three-element selection with force, exactly one element (the
first of the selection) is processed — the trace holds a single rebase call,
none for the other elements — and the other two are reported as remaining. -/
theorem c8_single_removal (x y : Int) (env : Advanced.Env)
    (commits : List CommitRecord)
    (hx : ¬(x < 0 ∨ 54 < x)) (hy : ¬(y < 0 ∨ 6 < y))
    (h3 : (selectByDate commits
      (resolveDate env.today x.toNat y.toNat)).length = 3) :
    ∃ a b c, selectByDate commits (resolveDate env.today x.toNat y.toNat) =
        [a, b, c] ∧
      (removeSingleCommitByCoordinates x y true env commits).trace =
        [Advanced.Event.rebaseOnto a.hash] ∧
      (env.rebaseOk a.hash = true →
        (removeSingleCommitByCoordinates x y true env commits).result =
          .ok ⟨[a.hash], [b.hash, c.hash]⟩) := by
  obtain ⟨a, b, c, hsel⟩ := List.length_eq_three.mp h3
  refine ⟨a, b, c, hsel, ?_, ?_⟩
  · unfold removeSingleCommitByCoordinates
    rw [if_neg hx, if_neg hy, hsel]
    by_cases hr : env.rebaseOk a.hash = true
    · simp [hr]
    · simp [hr]
  · intro hr
    unfold removeSingleCommitByCoordinates
    rw [if_neg hx, if_neg hy, hsel]
    simp [hr]

/-- Witness for C8: three commits on the target date, all splices succeed. -/
theorem c8_single_removal_witness :
    (selectByDate
      [⟨"a", "m1", ⟨⟨2024, 1, 16⟩, 600⟩⟩, ⟨"b", "m2", ⟨⟨2024, 1, 16⟩, 500⟩⟩,
        ⟨"c", "m3", ⟨⟨2024, 1, 16⟩, 400⟩⟩]
      (resolveDate (Advanced.Env.mk ⟨2025, 1, 15⟩ "n" false true
        (fun _ => true) true).today (0 : Int).toNat
        (0 : Int).toNat)).length = 3 ∧
    ∃ a b c, selectByDate
      [⟨"a", "m1", ⟨⟨2024, 1, 16⟩, 600⟩⟩, ⟨"b", "m2", ⟨⟨2024, 1, 16⟩, 500⟩⟩,
        ⟨"c", "m3", ⟨⟨2024, 1, 16⟩, 400⟩⟩]
      (resolveDate (Advanced.Env.mk ⟨2025, 1, 15⟩ "n" false true
        (fun _ => true) true).today (0 : Int).toNat (0 : Int).toNat) =
        [a, b, c] ∧
      (removeSingleCommitByCoordinates 0 0 true
        (Advanced.Env.mk ⟨2025, 1, 15⟩ "n" false true (fun _ => true) true)
        [⟨"a", "m1", ⟨⟨2024, 1, 16⟩, 600⟩⟩, ⟨"b", "m2", ⟨⟨2024, 1, 16⟩, 500⟩⟩,
          ⟨"c", "m3", ⟨⟨2024, 1, 16⟩, 400⟩⟩]).trace =
        [Advanced.Event.rebaseOnto a.hash] ∧
      ((Advanced.Env.mk ⟨2025, 1, 15⟩ "n" false true (fun _ => true)
          true).rebaseOk a.hash = true →
        (removeSingleCommitByCoordinates 0 0 true
          (Advanced.Env.mk ⟨2025, 1, 15⟩ "n" false true (fun _ => true) true)
          [⟨"a", "m1", ⟨⟨2024, 1, 16⟩, 600⟩⟩,
            ⟨"b", "m2", ⟨⟨2024, 1, 16⟩, 500⟩⟩,
            ⟨"c", "m3", ⟨⟨2024, 1, 16⟩, 400⟩⟩]).result =
          .ok ⟨[a.hash], [b.hash, c.hash]⟩) :=
  ⟨by decide, c8_single_removal 0 0
    (Advanced.Env.mk ⟨2025, 1, 15⟩ "n" false true (fun _ => true) true)
    [⟨"a", "m1", ⟨⟨2024, 1, 16⟩, 600⟩⟩, ⟨"b", "m2", ⟨⟨2024, 1, 16⟩, 500⟩⟩,
      ⟨"c", "m3", ⟨⟨2024, 1, 16⟩, 400⟩⟩] (by decide) (by decide) (by decide)⟩

end SingleRemoval
